import Mathlib

set_option maxRecDepth 10000

/-!
Shallow embedding of the parser/transformer core of `src/generate.ts`
(a script that converts Strapi-generated content-type declarations into
plain TypeScript interfaces).  All functions operate on `List Char`
(`String.data`) so that every definition is structurally recursive and
kernel-executable.  JavaScript string/regex semantics are translated
point-by-point; `\s` is modelled by the ASCII whitespace characters that
can occur in the tool's input.
-/

namespace StrapiGen

/-- JS `\s` restricted to ASCII (space, tab, newline, carriage return,
vertical tab, form feed). -/
def jsSpace (c : Char) : Bool :=
  c = ' ' || c = '\t' || c = '\n' || c = '\r' || c = '\x0b' || c = '\x0c'

/-- JS `\w`: ASCII letters, digits and underscore. -/
def wordChar (c : Char) : Bool :=
  ('a' ≤ c && c ≤ 'z') || ('A' ≤ c && c ≤ 'Z') || ('0' ≤ c && c ≤ '9') || c = '_'

/-- List-of-chars version of `isPrefixOf` (kept local so every reduction is
structural). -/
def lpre : List Char → List Char → Bool
  | [], _ => true
  | _ :: _, [] => false
  | a :: as', b :: bs => a = b && lpre as' bs

/-- JS `String.prototype.includes`: does `pat` occur as a contiguous
substring of `l`? -/
def subOf (pat : List Char) : List Char → Bool
  | [] => lpre pat []
  | c :: rest => lpre pat (c :: rest) || subOf pat rest

/-- `s.includes(pat)` lifted to `String`. -/
def strContains (s pat : String) : Bool :=
  subOf pat.data s.data

/-- Number of occurrences of a character (used for the bracket balance of
`parseAttributes`). -/
def countC (c : Char) : List Char → Nat
  | [] => 0
  | d :: rest => (if d = c then 1 else 0) + countC c rest

/-- Net `<` minus `>` count of a line, as in
`(match(/</g)||[]).length - (match(/>/g)||[]).length`. -/
def netAngle (l : List Char) : Int := (countC '<' l : Int) - (countC '>' l : Int)

/-- Net open-brace minus close-brace count of a line. -/
def netBrace (l : List Char) : Int := (countC '\x7b' l : Int) - (countC '\x7d' l : Int)

/-- Net `[` minus `]` count of a line. -/
def netBracket (l : List Char) : Int := (countC '[' l : Int) - (countC ']' l : Int)

/-- JS `split("\n")`. -/
def splitNl : List Char → List (List Char)
  | [] => [[]]
  | '\n' :: rest => [] :: splitNl rest
  | c :: rest =>
    match splitNl rest with
    | p :: ps => (c :: p) :: ps
    | [] => [[c]]

/-- JS `trim()` (over the modelled whitespace set). -/
def jsTrim (l : List Char) : List Char :=
  ((l.dropWhile jsSpace).reverse.dropWhile jsSpace).reverse

/-- Worker for `.replace(/\s+/g, " ")`: `prevSpace` records whether the
previous character belonged to a whitespace run already emitted as one
space. -/
def collapseWsAux (prevSpace : Bool) : List Char → List Char
  | [] => []
  | c :: rest =>
    if jsSpace c then
      if prevSpace then collapseWsAux true rest
      else ' ' :: collapseWsAux true rest
    else c :: collapseWsAux false rest

/-- JS `.replace(/\s+/g, " ")`. -/
def collapseWs (l : List Char) : List Char := collapseWsAux false l

/-- Worker for `.replace(/,\s*/g, " | ")`: after a comma the following
whitespace run is skipped. -/
def replCommaAux (skipping : Bool) : List Char → List Char
  | [] => []
  | c :: rest =>
    if skipping && jsSpace c then replCommaAux true rest
    else if c = ',' then ' ' :: '|' :: ' ' :: replCommaAux true rest
    else c :: replCommaAux false rest

/-- The enumeration-value cleanup of `transformAttributeType`:
`.replace(/\s+/g, " ").replace(/,\s*/g, " | ").trim()`. -/
def enumClean (l : List Char) : List Char :=
  jsTrim (replCommaAux false (collapseWs l))

/-- JS `.replace(/;$/, "")`: strip one trailing semicolon. -/
def stripTrailingSemi (l : List Char) : List Char :=
  match l.reverse with
  | ';' :: r => r.reverse
  | _ => l

/-- JS `.endsWith(";")`. -/
def endsWithSemi (l : List Char) : Bool :=
  match l.getLast? with
  | some ';' => true
  | _ => false

/-- `word.charAt(0).toUpperCase() + word.slice(1)` (ASCII upper-casing,
which is what the tool's inputs exercise). -/
def capFirstW : List Char → List Char
  | [] => []
  | c :: rest => c.toUpper :: rest

/-- Prepend a character to the first piece of a split result. -/
def consHead (c : Char) : List (List Char) → List (List Char)
  | p :: ps => (c :: p) :: ps
  | [] => [[c]]

/-- JS `split("::")` specialised to the two-colon separator. -/
def splitCC : List Char → List (List Char)
  | [] => [[]]
  | [c] => [[c]]
  | c :: d :: rest =>
    if c = ':' && d = ':' then [] :: splitCC rest
    else consHead c (splitCC (d :: rest))

/-- JS `split(/[-.]/)`. -/
def splitDD : List Char → List (List Char)
  | [] => [[]]
  | c :: rest =>
    if c = '.' || c = '-' then [] :: splitDD rest
    else consHead c (splitDD rest)

/-- `convertTypeNameToPascalCase` from the source: split on `::`, split each
part on `-` or `.`, upper-case the first letter of every word, concatenate
everything. -/
def convertTypeNameToPascalCase (typeName : String) : String :=
  String.mk
    (List.flatten
      ((splitCC typeName.data).map fun part =>
        List.flatten ((splitDD part).map capFirstW)))

/-! ### The regular-expression probes of `transformAttributeType` -/

/-- The continuation of `/Enumeration<\s*\[([^\]]+)\]\s*>/` after the
literal `Enumeration<` has been consumed: `\s*`, `[`, a non-empty run of
non-`]` characters (the capture), `]`, `\s*`, `>`. -/
def enumTryAt (l : List Char) : Option (List Char) :=
  match l.dropWhile jsSpace with
  | '[' :: r =>
    let inner := r.takeWhile (fun c => !(c = ']'))
    let rest := r.dropWhile (fun c => !(c = ']'))
    if inner.isEmpty then none
    else
      match rest with
      | ']' :: r2 =>
        match r2.dropWhile jsSpace with
        | '>' :: _ => some inner
        | _ => none
      | _ => none
  | _ => none

/-- Leftmost-match scan of `/Enumeration<\s*\[([^\]]+)\]\s*>/`: try every
occurrence of the literal `Enumeration<` in order, as the JS regex engine
does. -/
def enumScan : List Char → Option (List Char)
  | [] => none
  | c :: rest =>
    if lpre "Enumeration<".data (c :: rest) then
      match enumTryAt (List.drop "Enumeration<".data.length (c :: rest)) with
      | some x => some x
      | none => enumScan rest
    else enumScan rest

/-- The continuation of `/Relation<'([^']+)',\s*'([^']+)'/` after the
literal `Relation<'` has been consumed. -/
def relTryAt (l : List Char) : Option (List Char × List Char) :=
  let k := l.takeWhile (fun c => !(c = '\''))
  let rest := l.dropWhile (fun c => !(c = '\''))
  if k.isEmpty then none
  else
    match rest with
    | '\'' :: ',' :: r3 =>
      match r3.dropWhile jsSpace with
      | '\'' :: r5 =>
        let t := r5.takeWhile (fun c => !(c = '\''))
        let rest2 := r5.dropWhile (fun c => !(c = '\''))
        if t.isEmpty then none
        else
          match rest2 with
          | '\'' :: _ => some (k, t)
          | _ => none
      | _ => none
    | _ => none

/-- Leftmost-match scan of `/Relation<'([^']+)',\s*'([^']+)'/`. -/
def relScan : List Char → Option (List Char × List Char)
  | [] => none
  | c :: rest =>
    if lpre "Relation<'".data (c :: rest) then
      match relTryAt (List.drop "Relation<'".data.length (c :: rest)) with
      | some x => some x
      | none => relScan rest
    else relScan rest

/-- `transformAttributeType` from the source, with the same priority order
of substring probes. -/
def transformAttributeType (attributeType : String) : String :=
  if strContains attributeType "Schema.Attribute.Enumeration" then
    match enumScan attributeType.data with
    | some inner => String.mk (enumClean inner)
    | none => "string"
  else if strContains attributeType "Schema.Attribute.Relation" then
    match relScan attributeType.data with
    | some (relationType, targetType) =>
      let typeName := convertTypeNameToPascalCase (String.mk targetType)
      if relationType = "oneToMany".data || relationType = "manyToMany".data then
        typeName ++ "[]"
      else typeName
    | none => "any"
  else if strContains attributeType "Schema.Attribute.JSON" then
    if strContains attributeType "DefaultTo<'[]'>" ||
        strContains attributeType "DefaultTo<[]>" then
      "any[]"
    else if strContains attributeType "DefaultTo<'\x7b\x7d'>" ||
        strContains attributeType "DefaultTo<\x7b\x7d>" then
      "Record<string, any>"
    else
      "Record<string, any>"
  else if strContains attributeType "Schema.Attribute.String" then "string"
  else if strContains attributeType "Schema.Attribute.Email" then "string"
  else if strContains attributeType "Schema.Attribute.Password" then "string"
  else if strContains attributeType "Schema.Attribute.Text" then "string"
  else if strContains attributeType "Schema.Attribute.Integer" then "number"
  else if strContains attributeType "Schema.Attribute.BigInteger" then "number"
  else if strContains attributeType "Schema.Attribute.Decimal" then "number"
  else if strContains attributeType "Schema.Attribute.Boolean" then "boolean"
  else if strContains attributeType "Schema.Attribute.DateTime" then "string"
  else "any"

/-! ### `parseAttributes` -/

/-- A parsed, normalized attribute (the `Attribute` record of the source). -/
structure Attribute where
  name : String
  type : String
  required : Bool
deriving DecidableEq

/-- A parsed interface: name plus ordered attribute list. -/
structure ParsedInterface where
  name : String
  attributes : List Attribute
deriving DecidableEq

/-- The probe `line.match(/^(\w+):\s*(.*)/)` of `parseAttributes`, combined
with the truthiness guard `attrMatch && attrMatch[1] && attrMatch[2]`:
a maximal non-empty run of word characters, a colon, optional whitespace,
then a non-empty remainder.  Returns `(name, start of type expression)`. -/
def attrLineMatch (l : List Char) : Option (List Char × List Char) :=
  let w := l.takeWhile wordChar
  let rest := l.dropWhile wordChar
  if w.isEmpty then none
  else
    match rest with
    | ':' :: r2 =>
      let r3 := r2.dropWhile jsSpace
      if r3.isEmpty then none else some (w, r3)
    | _ => none

/-- The inner `while` of `parseAttributes`: keep appending lines (space
separated) while the text does not yet end with `;` or some bracket kind
still has more opens than closes; return the accumulated text and the
remaining lines. -/
def collectAttr (t : List Char) (a b c : Int) :
    List (List Char) → List Char × List (List Char)
  | [] => (t, [])
  | l :: ls =>
    if !endsWithSemi t || a > 0 || b > 0 || c > 0 then
      collectAttr (t ++ ' ' :: l) (a + netAngle l) (b + netBrace l)
        (c + netBracket l) ls
    else (t, l :: ls)

/-- Multi-line reconstruction starting from the first line's type remainder
`r0`: the initial balances are computed from `r0` itself, as in the source. -/
def reconstruct (r0 : List Char) (ls : List (List Char)) :
    List Char × List (List Char) :=
  collectAttr r0 (netAngle r0) (netBrace r0) (netBracket r0) ls

/-- The cleanup applied to a reconstructed attribute type:
`.replace(/;$/, "").replace(/\s+/g, " ").trim()`. -/
def cleanAttrType (t : List Char) : List Char :=
  jsTrim (collapseWs (stripTrailingSemi t))

/-- The outer scan of `parseAttributes`, with explicit fuel (one unit per
outer iteration; `parseAttributes` supplies `lines.length`, which is enough
because every iteration consumes at least one line). -/
def parseAttrsFuel : Nat → List (List Char) → List Attribute
  | 0, _ => []
  | _, [] => []
  | fuel + 1, l :: ls =>
    match attrLineMatch l with
    | none => parseAttrsFuel fuel ls
    | some (attrName, r0) =>
      let res := reconstruct r0 ls
      let attrType := cleanAttrType res.1
      if subOf "Schema.Attribute.Private".data attrType then
        parseAttrsFuel fuel res.2
      else
        { name := String.mk attrName,
          type := transformAttributeType (String.mk attrType),
          required := subOf "Schema.Attribute.Required".data attrType } ::
          parseAttrsFuel fuel res.2

/-- `content.split("\n").map(trim).filter(line => line)`. -/
def linesOf (s : String) : List (List Char) :=
  ((splitNl s.data).map jsTrim).filter (fun l => !l.isEmpty)

/-- `parseAttributes` from the source. -/
def parseAttributes (attributesContent : String) : List Attribute :=
  parseAttrsFuel (linesOf attributesContent).length (linesOf attributesContent)

/-! ### The interface extractor and renderer of `generateTypes` -/

/-- Split a list at the first occurrence of `pat`, returning the part
before it and the part after it (used for the lazy `([\s\S]*?)\n\}` tail
of the interface regex). -/
def findSubSplit (pat : List Char) : List Char → Option (List Char × List Char)
  | [] => if pat.isEmpty then some ([], []) else none
  | c :: rest =>
    if lpre pat (c :: rest) then some ([], List.drop pat.length (c :: rest))
    else
      match findSubSplit pat rest with
      | some (b, a) => some (c :: b, a)
      | none => none

/-- The continuation of `/export interface (\w+)[^\x7b]*\x7b([\s\S]*?)\n\}/`
after the literal `export interface ` has been consumed: a non-empty run of
word characters (the name), any characters other than an opening brace,
the opening brace, then the shortest body followed by a newline and a
column-zero closing brace.  Returns `(name, body, text after the match)`. -/
def ifaceTryAt (l : List Char) : Option (List Char × List Char × List Char) :=
  let nm := l.takeWhile wordChar
  let r1 := l.dropWhile wordChar
  if nm.isEmpty then none
  else
    match r1.dropWhile (fun c => !(c = '\x7b')) with
    | '\x7b' :: r2 =>
      match findSubSplit ('\n' :: ['\x7d']) r2 with
      | some (body, after) => some (nm, body, after)
      | none => none
    | _ => none

/-- The `while ((match = interfaceRegex.exec(backendContent)) !== null)`
loop: find every match of the interface regex in order, resuming after the
end of each match.  Fuel bounds the scan (one unit per character probed;
`interfaceMatches` supplies the content length). -/
def interfaceScanFuel : Nat → List Char → List (List Char × List Char)
  | 0, _ => []
  | _, [] => []
  | fuel + 1, c :: rest =>
    if lpre "export interface ".data (c :: rest) then
      match ifaceTryAt (List.drop "export interface ".data.length (c :: rest)) with
      | some (nm, body, after) => (nm, body) :: interfaceScanFuel fuel after
      | none => interfaceScanFuel fuel rest
    else interfaceScanFuel fuel rest

/-- All `(interfaceName, interfaceContent)` pairs produced by the global
interface regex on the source text. -/
def interfaceMatches (content : String) : List (List Char × List Char) :=
  interfaceScanFuel content.data.length content.data

/-- Are all characters up to the next newline (or the end of the text)
whitespace?  This is exactly when `\s*$` (multiline) can match here. -/
def restOfLineWs : List Char → Bool
  | [] => true
  | c :: rest => if c = '\n' then true else jsSpace c && restOfLineWs rest

/-- Skip one optional semicolon — the `;?` of the attributes regex. -/
def dropOptSemi : List Char → List Char
  | ';' :: r => r
  | r => r

/-- Find the first closing brace that — after an optional semicolon — is
followed only by whitespace up to the end of its line, and return the
characters before that brace.  This is the lazy tail
`([\s\S]*?)\s*\};?\s*$` of the attributes regex (the capture is everything
before the whitespace run preceding that brace). -/
def qualBraceSplit : List Char → Option (List Char)
  | [] => none
  | c :: rest =>
    if c = '\x7d' then
      if restOfLineWs (dropOptSemi rest) then some []
      else
        match qualBraceSplit rest with
        | some b => some (c :: b)
        | none => none
    else
      match qualBraceSplit rest with
      | some b => some (c :: b)
      | none => none

/-- The continuation of `/attributes:\s*\{([\s\S]*?)\s*\};?\s*$/m` after the
literal `attributes:`: optional whitespace, an opening brace, then the
capture up to the first qualifying closing brace (with the whitespace run
before that brace absorbed by `\s*`, i.e. trimmed off the capture). -/
def attrsTryAt (l : List Char) : Option (List Char) :=
  match l.dropWhile jsSpace with
  | '\x7b' :: r2 =>
    match qualBraceSplit r2 with
    | some before => some ((before.reverse.dropWhile jsSpace).reverse)
    | none => none
  | _ => none

/-- Leftmost-match scan of the attributes regex over one interface body. -/
def attrsScan : List Char → Option (List Char)
  | [] => none
  | c :: rest =>
    if lpre "attributes:".data (c :: rest) then
      match attrsTryAt (List.drop "attributes:".data.length (c :: rest)) with
      | some cap => some cap
      | none => attrsScan rest
    else attrsScan rest

/-- Processing of one regex match inside the `while` loop of
`generateTypes`: the truthiness guards on the match groups, the attributes
sub-match, `parseAttributes`, and the `attributes.length > 0` filter. -/
def processMatch (m : List Char × List Char) : Option ParsedInterface :=
  if m.1.isEmpty then none
  else if m.2.isEmpty then none
  else
    match attrsScan m.2 with
    | none => none
    | some cap =>
      if cap.isEmpty then none
      else
        let attrs := parseAttributes (String.mk cap)
        if attrs.length > 0 then
          some { name := String.mk m.1, attributes := attrs }
        else none

/-- The ordered list of `ParsedInterface` built by `generateTypes`. -/
def interfacesOf (content : String) : List ParsedInterface :=
  (interfaceMatches content).filterMap processMatch

/-- One property line: `  <name><"?" if not required>: <type>;`. -/
def renderAttr (attr : Attribute) : String :=
  "  " ++ attr.name ++ (if attr.required then "" else "?") ++ ": " ++
    attr.type ++ ";"

/-- Join a list of strings with a separator (JS `Array.prototype.join`). -/
def joinWith (sep : String) : List String → String
  | [] => ""
  | [x] => x
  | x :: xs => x ++ sep ++ joinWith sep xs

/-- One interface block: `export interface <name> \x7b ... \x7d`. -/
def renderInterface (iface : ParsedInterface) : String :=
  "export interface " ++ iface.name ++ " \x7b\n" ++
    joinWith "\n" (iface.attributes.map renderAttr) ++ "\n\x7d"

/-- The pure core of `generateTypes`: source text in, generated interface
text out (file I/O and CLI handling of the source are outside the core). -/
def generateTypes (backendContent : String) : String :=
  joinWith "\n\n" ((interfacesOf backendContent).map renderInterface)

/-! ### Statement vocabulary for the claims -/

/-- The nine scalar marker tokens of the fixed type table. -/
inductive ScalarMarker where
  | string | email | password | text | integer | bigInteger | decimal
  | boolean | dateTime
deriving DecidableEq, Fintype

/-- The marker substring probed for each scalar marker. -/
def markerStr : ScalarMarker → String
  | .string => "Schema.Attribute.String"
  | .email => "Schema.Attribute.Email"
  | .password => "Schema.Attribute.Password"
  | .text => "Schema.Attribute.Text"
  | .integer => "Schema.Attribute.Integer"
  | .bigInteger => "Schema.Attribute.BigInteger"
  | .decimal => "Schema.Attribute.Decimal"
  | .boolean => "Schema.Attribute.Boolean"
  | .dateTime => "Schema.Attribute.DateTime"

/-- The documented primitive display type for each scalar marker. -/
def primOf : ScalarMarker → String
  | .string => "string"
  | .email => "string"
  | .password => "string"
  | .text => "string"
  | .integer => "number"
  | .bigInteger => "number"
  | .decimal => "number"
  | .boolean => "boolean"
  | .dateTime => "string"

/-- The stop condition the source's reconstruction loop actually tests:
the accumulated text ends with a semicolon and no bracket kind has *more*
opens than closes (a surplus of closers also counts as done). -/
def stopBalanced (t : List Char) : Bool :=
  endsWithSemi t && netAngle t ≤ 0 && netBrace t ≤ 0 && netBracket t ≤ 0

/-- Append a run of continuation lines to an accumulated type expression,
each prefixed with a single space. -/
def joinSp (t : List Char) (pre : List (List Char)) : List Char :=
  pre.foldl (fun acc l => acc ++ ' ' :: l) t

/-- The reconstruction loop as the specification words it: stop only once
the text ends with `;` *and* every net bracket count is exactly zero.
Written only to be compared against the source's `collectAttr`. -/
def collectAttrSpec (t : List Char) (a b c : Int) :
    List (List Char) → List Char × List (List Char)
  | [] => (t, [])
  | l :: ls =>
    if endsWithSemi t && a = 0 && b = 0 && c = 0 then (t, l :: ls)
    else
      collectAttrSpec (t ++ ' ' :: l) (a + netAngle l) (b + netBrace l)
        (c + netBracket l) ls

/-- Reconstruction using the spec-worded stop condition. -/
def reconstructSpec (r0 : List Char) (ls : List (List Char)) :
    List Char × List (List Char) :=
  collectAttrSpec r0 (netAngle r0) (netBrace r0) (netBracket r0) ls

/-! ### Concrete inputs used by the claims -/

/-- The end-to-end scenario input of spec section 8: one exported interface
with the six documented attributes. -/
def c1Input : String :=
  "export interface ApiArticleArticle \x7b\n  collectionName: 'articles';\n  attributes: \x7b\n    title: Schema.Attribute.String & Schema.Attribute.Required;\n    content: Schema.Attribute.Text;\n    status: Schema.Attribute.Enumeration<[\"draft\", \"published\"]> &\n      Schema.Attribute.Required;\n    author: Schema.Attribute.Relation<'oneToOne', 'api::author.author'>;\n    tags: Schema.Attribute.Relation<'oneToMany', 'api::tag.tag'>;\n    metadata: Schema.Attribute.JSON & Schema.Attribute.DefaultTo<\x7b\x7d>;\n  \x7d;\n\x7d\n"

/-- The exact output text the spec requires for `c1Input`. -/
def c1Output : String :=
  "export interface ApiArticleArticle \x7b\n  title: string;\n  content?: string;\n  status: \"draft\" | \"published\";\n  author?: ApiAuthorAuthor;\n  tags?: ApiTagTag[];\n  metadata?: Record<string, any>;\n\x7d"

/-- A JSON attribute whose object-literal default keeps the nested braces
on one continuation line (the shape the spec's multi-line example
describes): the expression spans two lines, the nested closing brace is
not the last non-whitespace of its line. -/
def c3GoodInput : String :=
  "export interface ApiPagePage \x7b\n  attributes: \x7b\n    metadata: Schema.Attribute.JSON &\n      Schema.Attribute.DefaultTo<\x7b\x7d>;\n    title: Schema.Attribute.String & Schema.Attribute.Required;\n  \x7d;\n\x7d\n"

/-- Output for `c3GoodInput`: the split attribute is reconstructed whole
and nothing is dropped. -/
def c3GoodOutput : String :=
  "export interface ApiPagePage \x7b\n  metadata?: Record<string, any>;\n  title: string;\n\x7d"

/-- A multi-line attribute whose nested closing brace is the last
non-whitespace character of its own line: the attributes regex takes that
brace as the sub-block's closing brace. -/
def c3BadInput : String :=
  "export interface ApiPagePage \x7b\n  attributes: \x7b\n    meta: Schema.Attribute.JSON & Schema.Attribute.DefaultTo<\x7b\n      a\n    \x7d\n    >;\n    title: Schema.Attribute.String & Schema.Attribute.Required;\n  \x7d;\n\x7d\n"

/-! ## Helper lemmas -/

theorem mk_data (s : String) : String.mk s.data = s := rfl

theorem splitCC_no_colon (l : List Char) (h : ∀ c ∈ l, ¬ c = ':') :
    splitCC l = [l] := by
  match l with
  | [] => rfl
  | [c] => rfl
  | c :: d :: rest =>
    have hc : ¬ c = ':' := h c (by simp)
    have ih : splitCC (d :: rest) = [d :: rest] :=
      splitCC_no_colon (d :: rest) (fun x hx => h x (by simp at hx; simp [hx]))
    simp [splitCC, hc, ih, consHead]

theorem splitDD_no_sep (l : List Char) (h : ∀ c ∈ l, ¬ c = '.' ∧ ¬ c = '-') :
    splitDD l = [l] := by
  match l with
  | [] => rfl
  | c :: rest =>
    have hc := h c (by simp)
    have ih : splitDD rest = [rest] :=
      splitDD_no_sep rest (fun x hx => h x (by simp [hx]))
    simp [splitDD, hc.1, hc.2, ih, consHead]

theorem countC_append (c : Char) (a b : List Char) :
    countC c (a ++ b) = countC c a + countC c b := by
  induction a with
  | nil => simp [countC]
  | cons x xs ih => simp [countC, ih, Nat.add_assoc]

theorem netAngle_join (t l : List Char) :
    netAngle (t ++ ' ' :: l) = netAngle t + netAngle l := by
  simp [netAngle, countC_append, countC]
  omega

theorem netBrace_join (t l : List Char) :
    netBrace (t ++ ' ' :: l) = netBrace t + netBrace l := by
  simp [netBrace, countC_append, countC]
  omega

theorem netBracket_join (t l : List Char) :
    netBracket (t ++ ' ' :: l) = netBracket t + netBracket l := by
  simp [netBracket, countC_append, countC]
  omega

theorem guard_iff (t : List Char) :
    ((!endsWithSemi t || netAngle t > 0 || netBrace t > 0 || netBracket t > 0) :
      Bool) = !stopBalanced t := by
  rw [Bool.eq_iff_iff]
  cases he : endsWithSemi t <;> simp [stopBalanced, he]

/-- Characterization of the source's reconstruction loop: the lines split
into a consumed prefix (joined onto the text with single spaces) and an
untouched suffix; the loop stops either at end of input or at a point
where the accumulated text ends with `;` and every net bracket count is at
most zero, and at no earlier point did that condition hold. -/
theorem collectAttr_joins (ls : List (List Char)) (t : List Char) :
    ∃ pre suf, ls = pre ++ suf ∧
      collectAttr t (netAngle t) (netBrace t) (netBracket t) ls =
        (joinSp t pre, suf) ∧
      (suf = [] ∨ stopBalanced (joinSp t pre) = true) ∧
      ∀ k, k < pre.length → stopBalanced (joinSp t (pre.take k)) = false := by
  induction ls generalizing t with
  | nil => exact ⟨[], [], rfl, rfl, Or.inl rfl, by simp⟩
  | cons l ls ih =>
    cases hs : stopBalanced t with
    | true =>
      refine ⟨[], l :: ls, rfl, ?_, Or.inr (by simpa [joinSp] using hs), by simp⟩
      simp [collectAttr, guard_iff, hs, joinSp]
    | false =>
      have hstep :
          collectAttr t (netAngle t) (netBrace t) (netBracket t) (l :: ls) =
            collectAttr (t ++ ' ' :: l) (netAngle (t ++ ' ' :: l))
              (netBrace (t ++ ' ' :: l)) (netBracket (t ++ ' ' :: l)) ls := by
        simp [collectAttr, guard_iff, hs, netAngle_join, netBrace_join,
          netBracket_join]
      obtain ⟨pre, suf, h1, h2, h3, h4⟩ := ih (t ++ ' ' :: l)
      refine ⟨l :: pre, suf, by simp [h1], ?_, ?_, ?_⟩
      · rw [hstep, h2]
        rfl
      · simpa [joinSp] using h3
      · intro k hk
        cases k with
        | zero => simpa [joinSp] using hs
        | succ k => simpa [joinSp] using h4 k (by simpa using hk)

theorem lpre_self_append (p r : List Char) : lpre p (p ++ r) = true := by
  induction p with
  | nil => rfl
  | cons c p ih => simp [lpre, ih]

theorem subOf_of_lpre (p l : List Char) (h : lpre p l = true) :
    subOf p l = true := by
  cases l with
  | nil => simpa [subOf] using h
  | cons c rest => simp [subOf, h]

theorem takeWhile_middle (p : Char → Bool) (xs : List Char) (y : Char)
    (ys : List Char) (hx : ∀ x ∈ xs, p x = true) (hy : p y = false) :
    (xs ++ y :: ys).takeWhile p = xs := by
  induction xs with
  | nil => simp [hy]
  | cons x xs ih =>
    have hpx := hx x (by simp)
    simp [List.takeWhile_cons, hpx, ih (fun z hz => hx z (by simp [hz]))]

theorem dropWhile_middle (p : Char → Bool) (xs : List Char) (y : Char)
    (ys : List Char) (hx : ∀ x ∈ xs, p x = true) (hy : p y = false) :
    (xs ++ y :: ys).dropWhile p = y :: ys := by
  induction xs with
  | nil => simp [hy]
  | cons x xs ih =>
    have hpx := hx x (by simp)
    simp [List.dropWhile_cons, hpx, ih (fun z hz => hx z (by simp [hz]))]

theorem enumScan_prepend (pre rest : List Char) (h : ∀ c ∈ pre, ¬ c = 'E') :
    enumScan (pre ++ rest) = enumScan rest := by
  induction pre with
  | nil => rfl
  | cons c pre ih =>
    have hc' : ¬ ('E' = c) := fun hq => h c (by simp) hq.symm
    have hl : lpre "Enumeration<".data (c :: (pre ++ rest)) = false := by
      rw [show "Enumeration<".data = 'E' :: "numeration<".data from rfl]
      simp [lpre, hc']
    simp [List.cons_append, enumScan, hl, ih (fun x hx => h x (by simp [hx]))]

theorem relScan_prepend (pre rest : List Char) (h : ∀ c ∈ pre, ¬ c = 'R') :
    relScan (pre ++ rest) = relScan rest := by
  induction pre with
  | nil => rfl
  | cons c pre ih =>
    have hc' : ¬ ('R' = c) := fun hq => h c (by simp) hq.symm
    have hl : lpre "Relation<'".data (c :: (pre ++ rest)) = false := by
      rw [show "Relation<'".data = 'R' :: "elation<'".data from rfl]
      simp [lpre, hc']
    simp [List.cons_append, relScan, hl, ih (fun x hx => h x (by simp [hx]))]

theorem enumScan_at (w1 inner w2 post : List Char) (h1 : ¬ inner = [])
    (h2 : ∀ c ∈ inner, ¬ c = ']') (h3 : ∀ c ∈ w1, jsSpace c = true)
    (h4 : ∀ c ∈ w2, jsSpace c = true) :
    enumScan ("Enumeration<".data ++
        (w1 ++ ('[' :: (inner ++ (']' :: (w2 ++ ('>' :: post))))))) =
      some inner := by
  have hie : inner.isEmpty = false := by
    cases inner
    · exact absurd rfl h1
    · rfl
  have hdw1 :
      (w1 ++ ('[' :: (inner ++ (']' :: (w2 ++ ('>' :: post)))))).dropWhile
          jsSpace =
        '[' :: (inner ++ (']' :: (w2 ++ ('>' :: post)))) :=
    dropWhile_middle _ _ _ _ h3 (by decide)
  have htk :
      (inner ++ (']' :: (w2 ++ ('>' :: post)))).takeWhile
          (fun c => !(c = ']')) = inner :=
    takeWhile_middle _ _ _ _ (fun x hx => by simp [h2 x hx]) (by decide)
  have hdr :
      (inner ++ (']' :: (w2 ++ ('>' :: post)))).dropWhile
          (fun c => !(c = ']')) = ']' :: (w2 ++ ('>' :: post)) :=
    dropWhile_middle _ _ _ _ (fun x hx => by simp [h2 x hx]) (by decide)
  have hdw2 : (w2 ++ ('>' :: post)).dropWhile jsSpace = '>' :: post :=
    dropWhile_middle _ _ _ _ h4 (by decide)
  rw [show "Enumeration<".data ++
        (w1 ++ ('[' :: (inner ++ (']' :: (w2 ++ ('>' :: post)))))) =
      'E' :: 'n' :: 'u' :: 'm' :: 'e' :: 'r' :: 'a' :: 't' :: 'i' :: 'o' ::
        'n' :: '<' ::
        (w1 ++ ('[' :: (inner ++ (']' :: (w2 ++ ('>' :: post)))))) from rfl]
  simp [enumScan, lpre, enumTryAt, hdw1, htk, hdr, hdw2, hie]

theorem relScan_at (kind target post w : List Char) (hk : ¬ kind = [])
    (hk2 : ∀ c ∈ kind, ¬ c = '\'') (ht : ¬ target = [])
    (ht2 : ∀ c ∈ target, ¬ c = '\'') (hw : ∀ c ∈ w, jsSpace c = true) :
    relScan ("Relation<'".data ++
        (kind ++
          ('\'' :: (',' :: (w ++ ('\'' :: (target ++ ('\'' :: post)))))))) =
      some (kind, target) := by
  have hke : kind.isEmpty = false := by
    cases kind
    · exact absurd rfl hk
    · rfl
  have hte : target.isEmpty = false := by
    cases target
    · exact absurd rfl ht
    · rfl
  have htk1 :
      (kind ++
          ('\'' :: (',' :: (w ++ ('\'' :: (target ++ ('\'' :: post))))))).takeWhile
          (fun c => !(c = '\'')) = kind :=
    takeWhile_middle _ _ _ _ (fun x hx => by simp [hk2 x hx]) (by decide)
  have hdr1 :
      (kind ++
          ('\'' :: (',' :: (w ++ ('\'' :: (target ++ ('\'' :: post))))))).dropWhile
          (fun c => !(c = '\'')) =
        '\'' :: (',' :: (w ++ ('\'' :: (target ++ ('\'' :: post))))) :=
    dropWhile_middle _ _ _ _ (fun x hx => by simp [hk2 x hx]) (by decide)
  have hdw : (w ++ ('\'' :: (target ++ ('\'' :: post)))).dropWhile jsSpace =
      '\'' :: (target ++ ('\'' :: post)) :=
    dropWhile_middle _ _ _ _ hw (by decide)
  have htk2 : (target ++ ('\'' :: post)).takeWhile (fun c => !(c = '\'')) =
      target :=
    takeWhile_middle _ _ _ _ (fun x hx => by simp [ht2 x hx]) (by decide)
  have hdr2 : (target ++ ('\'' :: post)).dropWhile (fun c => !(c = '\'')) =
      '\'' :: post :=
    dropWhile_middle _ _ _ _ (fun x hx => by simp [ht2 x hx]) (by decide)
  rw [show "Relation<'".data ++
        (kind ++
          ('\'' :: (',' :: (w ++ ('\'' :: (target ++ ('\'' :: post))))))) =
      'R' :: 'e' :: 'l' :: 'a' :: 't' :: 'i' :: 'o' :: 'n' :: '<' :: '\'' ::
        (kind ++
          ('\'' :: (',' :: (w ++ ('\'' :: (target ++ ('\'' :: post)))))))
      from rfl]
  simp [relScan, lpre, relTryAt, htk1, hdr1, hdw, htk2, hdr2, hke, hte]

/-- First-stop characterization of the attributes-capture boundary: when
`qualBraceSplit` returns a prefix, the input splits at a closing brace
whose rest-of-line (modulo an optional semicolon) is whitespace, and no
closing brace occurring earlier has that property; when it returns
nothing, no closing brace in the input has that property. -/
theorem qualBraceSplit_first (l : List Char) :
    (∀ b, qualBraceSplit l = some b →
      ∃ rest, l = b ++ '\x7d' :: rest ∧
        restOfLineWs (dropOptSemi rest) = true ∧
        ∀ b' rest', l = b' ++ '\x7d' :: rest' → b'.length < b.length →
          restOfLineWs (dropOptSemi rest') = false) ∧
    (qualBraceSplit l = none →
      ∀ b' rest', l = b' ++ '\x7d' :: rest' →
        restOfLineWs (dropOptSemi rest') = false) := by
  induction l with
  | nil =>
    refine ⟨fun b hb => absurd hb (by simp [qualBraceSplit]),
      fun _ b' rest' habs => ?_⟩
    cases b' <;> simp at habs
  | cons c rest ih =>
    obtain ⟨ih1, ih2⟩ := ih
    by_cases hc : c = '\x7d'
    · subst hc
      by_cases hq : restOfLineWs (dropOptSemi rest) = true
      · have heval : qualBraceSplit ('\x7d' :: rest) = some [] := by
          simp [qualBraceSplit, hq]
        refine ⟨fun b hb => ?_, fun hn => ?_⟩
        · rw [heval] at hb
          obtain rfl : ([] : List Char) = b := Option.some.inj hb
          exact ⟨rest, rfl, hq, fun b' rest' _ hlen => absurd hlen (by simp)⟩
        · rw [heval] at hn
          exact absurd hn (by simp)
      · have hq' : restOfLineWs (dropOptSemi rest) = false := by
          revert hq
          cases restOfLineWs (dropOptSemi rest) <;> simp
        cases hqr : qualBraceSplit rest with
        | some b0 =>
          have heval : qualBraceSplit ('\x7d' :: rest) = some ('\x7d' :: b0) := by
            simp [qualBraceSplit, hq', hqr]
          obtain ⟨rest0, he, hcl, hmin⟩ := ih1 b0 hqr
          refine ⟨fun b hb => ?_, fun hn => ?_⟩
          · rw [heval] at hb
            obtain rfl : '\x7d' :: b0 = b := Option.some.inj hb
            refine ⟨rest0, by simp [he], hcl, ?_⟩
            intro b' rest' hsplit hlen
            cases b' with
            | nil =>
              simp only [List.nil_append, List.cons.injEq] at hsplit
              rw [← hsplit.2]
              exact hq'
            | cons c' b'' =>
              simp only [List.cons_append, List.cons.injEq] at hsplit
              simp only [List.length_cons] at hlen
              exact hmin b'' rest' hsplit.2 (by omega)
          · rw [heval] at hn
            exact absurd hn (by simp)
        | none =>
          have heval : qualBraceSplit ('\x7d' :: rest) = none := by
            simp [qualBraceSplit, hq', hqr]
          refine ⟨fun b hb => ?_, fun _ b' rest' hsplit => ?_⟩
          · rw [heval] at hb
            exact absurd hb (by simp)
          · cases b' with
            | nil =>
              simp only [List.nil_append, List.cons.injEq] at hsplit
              rw [← hsplit.2]
              exact hq'
            | cons c' b'' =>
              simp only [List.cons_append, List.cons.injEq] at hsplit
              exact ih2 hqr b'' rest' hsplit.2
    · have heval : qualBraceSplit (c :: rest) =
          match qualBraceSplit rest with
          | some b => some (c :: b)
          | none => none := by
        simp [qualBraceSplit, hc]
      cases hqr : qualBraceSplit rest with
      | some b0 =>
        rw [hqr] at heval
        obtain ⟨rest0, he, hcl, hmin⟩ := ih1 b0 hqr
        refine ⟨fun b hb => ?_, fun hn => ?_⟩
        · rw [heval] at hb
          obtain rfl : c :: b0 = b := Option.some.inj hb
          refine ⟨rest0, by simp [he], hcl, ?_⟩
          intro b' rest' hsplit hlen
          cases b' with
          | nil =>
            simp only [List.nil_append, List.cons.injEq] at hsplit
            exact absurd hsplit.1 hc
          | cons c' b'' =>
            simp only [List.cons_append, List.cons.injEq] at hsplit
            simp only [List.length_cons] at hlen
            exact hmin b'' rest' hsplit.2 (by omega)
        · rw [heval] at hn
          exact absurd hn (by simp)
      | none =>
        rw [hqr] at heval
        refine ⟨fun b hb => ?_, fun _ b' rest' hsplit => ?_⟩
        · rw [heval] at hb
          exact absurd hb (by simp)
        · cases b' with
          | nil =>
            simp only [List.nil_append, List.cons.injEq] at hsplit
            exact absurd hsplit.1 hc
          | cons c' b'' =>
            simp only [List.cons_append, List.cons.injEq] at hsplit
            exact ih2 hqr b'' rest' hsplit.2

theorem collectAttr_rest_le (ls : List (List Char)) (t : List Char)
    (a b c : Int) : ((collectAttr t a b c ls).2).length ≤ ls.length := by
  induction ls generalizing t a b c with
  | nil => simp [collectAttr]
  | cons l ls ih =>
    simp only [collectAttr]
    split
    · exact le_trans (ih _ _ _ _) (by simp)
    · simp

/-! ## Claims -/

/-- C1: on the end-to-end scenario input of spec section 8 — one exported
interface `ApiArticleArticle` with attributes `title` (string, required),
`content` (text, optional), `status` (enumeration of "draft"/"published",
required), `author` (oneToOne relation, optional), `tags` (oneToMany
relation, optional) and `metadata` (JSON with object-literal default,
optional) — the whole transformation produces exactly the documented
output text. -/
theorem claim1_end_to_end : generateTypes c1Input = c1Output := by decide

/-- C3 (counterexample): the extractor CAN mistake a nested closing brace
for the attributes sub-block's closing brace.  In `c3BadInput` the `meta`
attribute's object-literal default puts its nested closing brace as the
last non-whitespace of a line; the attributes regex stops there, so the
declared `title` attribute is dropped from the output even though the
input declares it. -/
theorem claim3_counterexample :
    generateTypes c3BadInput =
      "export interface ApiPagePage \x7b\n  meta?: Record<string, any>;\n\x7d" ∧
    strContains c3BadInput
      "title: Schema.Attribute.String & Schema.Attribute.Required;" = true ∧
    strContains (generateTypes c3BadInput) "title" = false :=
  ⟨by decide, by decide, by decide⟩

/-- C3 (amended): the extractor ends the attributes sub-block at the
FIRST closing brace that — after an optional semicolon — is followed only
by whitespace up to the end of its line: a nested closing brace at any
other position is never taken as the sub-block's closing brace (it is
skipped over by the capture, and when no line-terminal brace exists
nothing is captured at all); and on the spec's example — a JSON attribute
with an object-literal default whose expression spans two lines, the
nested braces not line-terminal — the attribute is reconstructed into one
logical attribute and transformed correctly, with no attribute of the
interface dropped or truncated. -/
theorem claim3_amended :
    (∀ l b : List Char, qualBraceSplit l = some b →
      ∃ rest, l = b ++ '\x7d' :: rest ∧
        restOfLineWs (dropOptSemi rest) = true ∧
        ∀ b' rest', l = b' ++ '\x7d' :: rest' → b'.length < b.length →
          restOfLineWs (dropOptSemi rest') = false) ∧
    (∀ l : List Char, qualBraceSplit l = none →
      ∀ b' rest', l = b' ++ '\x7d' :: rest' →
        restOfLineWs (dropOptSemi rest') = false) ∧
    generateTypes c3GoodInput = c3GoodOutput :=
  ⟨fun l => (qualBraceSplit_first l).1, fun l => (qualBraceSplit_first l).2,
    by decide⟩

/-- C3 (amended, witness): in a block containing a nested closing brace
that is not the last non-whitespace of its line, the capture skips that
brace and ends at the first line-terminal closing brace. -/
theorem claim3_amended_witness :
    ∃ rest, "nested\x7d not-terminal\n  \x7d;\n tail".data =
        "nested\x7d not-terminal\n  ".data ++ '\x7d' :: rest ∧
      restOfLineWs (dropOptSemi rest) = true ∧
      ∀ b' rest',
        "nested\x7d not-terminal\n  \x7d;\n tail".data =
          b' ++ '\x7d' :: rest' →
        b'.length < "nested\x7d not-terminal\n  ".data.length →
        restOfLineWs (dropOptSemi rest') = false :=
  claim3_amended.1 "nested\x7d not-terminal\n  \x7d;\n tail".data
    "nested\x7d not-terminal\n  ".data (by decide)

/-- C9 (counterexample): `convert (convert x) = convert x` does not hold
for every string: for `x = "a:.::.:b"` the first conversion produces
`"A::b"`, which still contains a `::` separator, so converting again
yields `"AB"`. -/
theorem claim9_counterexample :
    convertTypeNameToPascalCase (convertTypeNameToPascalCase "a:.::.:b") ≠
      convertTypeNameToPascalCase "a:.::.:b" := by decide

/-- C9 (amended): `convertTypeNameToPascalCase` maps `api::article.article`
to `ApiArticleArticle` and `api::tag.tag` to `ApiTagTag`, and it is the
identity on every name that contains no `:`, `.` or `-` and whose first
character is unchanged by upper-casing — in particular re-applying it to
either produced name returns that name unchanged. -/
theorem claim9_amended :
    convertTypeNameToPascalCase "api::article.article" = "ApiArticleArticle" ∧
    convertTypeNameToPascalCase "api::tag.tag" = "ApiTagTag" ∧
    ∀ s : String, (∀ c ∈ s.data, ¬ c = ':' ∧ ¬ c = '.' ∧ ¬ c = '-') →
      capFirstW s.data = s.data → convertTypeNameToPascalCase s = s := by
  refine ⟨by decide, by decide, ?_⟩
  intro s h hcap
  unfold convertTypeNameToPascalCase
  rw [splitCC_no_colon _ (fun c hc => (h c hc).1)]
  rw [List.map_cons, List.map_nil,
    splitDD_no_sep _ (fun c hc => ⟨(h c hc).2.1, (h c hc).2.2⟩),
    List.map_cons, List.map_nil, hcap]
  simp [mk_data]

/-- C9 (amended, witness): re-applying the conversion to the produced
name `ApiArticleArticle` returns it unchanged. -/
theorem claim9_amended_witness :
    convertTypeNameToPascalCase "ApiArticleArticle" = "ApiArticleArticle" :=
  claim9_amended.2.2 "ApiArticleArticle" (by decide) (by decide)

/-- C2 (counterexample): the reconstruction loop does not stop at "net
count exactly zero": with first-line remainder `X>;` (angle balance `-1`)
and one further line available, the source loop stops immediately (balance
`≤ 0` suffices), while the spec-worded loop (exact zero) would keep
appending to the end of input. -/
theorem claim2_counterexample :
    reconstruct "X>;".data ["b: Y;".data] ≠
      reconstructSpec "X>;".data ["b: Y;".data] := by decide

/-- C2 (amended): the multi-line reconstruction appends each subsequent
line prefixed by a single space, and stops at the first point where the
accumulated text ends with `;` and, for each of the three bracket kinds,
the running net count of opens minus closes is at most zero (not "exactly
zero": a surplus of closers also stops the loop); if end of input is
reached before this point, the loop terminates anyway. -/
theorem claim2_amended (r0 : List Char) (ls : List (List Char)) :
    ∃ pre suf, ls = pre ++ suf ∧
      reconstruct r0 ls = (joinSp r0 pre, suf) ∧
      (suf = [] ∨ stopBalanced (joinSp r0 pre) = true) ∧
      ∀ k, k < pre.length → stopBalanced (joinSp r0 (pre.take k)) = false :=
  collectAttr_joins ls r0

/-- C2 (amended, witness): the characterization instantiated on the
two-line enumeration attribute of the end-to-end scenario. -/
theorem claim2_amended_witness :
    ∃ pre suf,
      ["Schema.Attribute.Required;".data] = pre ++ suf ∧
      reconstruct "Schema.Attribute.Enumeration<[\"draft\", \"published\"]> &".data
          ["Schema.Attribute.Required;".data] =
        (joinSp "Schema.Attribute.Enumeration<[\"draft\", \"published\"]> &".data pre,
          suf) ∧
      (suf = [] ∨
        stopBalanced
          (joinSp "Schema.Attribute.Enumeration<[\"draft\", \"published\"]> &".data
            pre) = true) ∧
      ∀ k, k < pre.length →
        stopBalanced
          (joinSp "Schema.Attribute.Enumeration<[\"draft\", \"published\"]> &".data
            (pre.take k)) = false :=
  claim2_amended "Schema.Attribute.Enumeration<[\"draft\", \"published\"]> &".data
    ["Schema.Attribute.Required;".data]

/-- C10: the attribute parser terminates on every input within one outer
iteration per line: the result of `parseAttrsFuel` is independent of the
fuel once the fuel reaches the number of lines (so `parseAttributes`,
which supplies exactly that fuel, computes the loop's true fixpoint), the
inner reconstruction loop consumes at most the lines it is given, and
`parseAttributes` is the fuelled scan at `lines.length`. -/
theorem claim10_termination :
    (∀ (lines : List (List Char)) (fuel1 fuel2 : Nat),
      lines.length ≤ fuel1 → lines.length ≤ fuel2 →
      parseAttrsFuel fuel1 lines = parseAttrsFuel fuel2 lines) ∧
    (∀ (t : List Char) (a b c : Int) (ls : List (List Char)),
      ((collectAttr t a b c ls).2).length ≤ ls.length) ∧
    ∀ s : String,
      parseAttributes s = parseAttrsFuel (linesOf s).length (linesOf s) := by
  refine ⟨?_, fun t a b c ls => collectAttr_rest_le ls t a b c, fun s => rfl⟩
  have main : ∀ (n : Nat) (lines : List (List Char)), lines.length = n →
      ∀ fuel1 fuel2, n ≤ fuel1 → n ≤ fuel2 →
      parseAttrsFuel fuel1 lines = parseAttrsFuel fuel2 lines := by
    intro n
    induction n using Nat.strong_induction_on with
    | _ n ih =>
      intro lines hlen fuel1 fuel2 h1 h2
      cases lines with
      | nil => cases fuel1 <;> cases fuel2 <;> simp [parseAttrsFuel]
      | cons l ls =>
        simp only [List.length_cons] at hlen
        cases fuel1 with
        | zero => omega
        | succ f1 =>
          cases fuel2 with
          | zero => omega
          | succ f2 =>
            simp only [parseAttrsFuel]
            cases hm : attrLineMatch l with
            | none =>
              exact ih ls.length (by omega) ls rfl f1 f2 (by omega) (by omega)
            | some nr =>
              obtain ⟨nm, r0⟩ := nr
              have hrest : ((reconstruct r0 ls).2).length ≤ ls.length :=
                collectAttr_rest_le ls r0 _ _ _
              have hrec := ih ((reconstruct r0 ls).2).length (by omega)
                (reconstruct r0 ls).2 rfl f1 f2 (by omega) (by omega)
              by_cases hp :
                  subOf "Schema.Attribute.Private".data
                    (cleanAttrType (reconstruct r0 ls).1) = true
              · simp [hp, hrec]
              · simp only [Bool.not_eq_true] at hp
                simp [hp, hrec]
  intro lines fuel1 fuel2 h1 h2
  exact main lines.length lines rfl fuel1 fuel2 h1 h2

/-- C10 (witness): a two-line attribute block parses identically under any
fuel at least the line count. -/
theorem claim10_termination_witness :
    parseAttrsFuel 3
        (linesOf "a: Schema.Attribute.String;\nb: Schema.Attribute.Text;") =
      parseAttrsFuel 5
        (linesOf "a: Schema.Attribute.String;\nb: Schema.Attribute.Text;") :=
  claim10_termination.1
    (linesOf "a: Schema.Attribute.String;\nb: Schema.Attribute.Text;") 3 5
    (by decide) (by decide)

/-- C4: a type expression that contains exactly one scalar marker — in any
combination with non-type markers (required, unique, default annotations)
but with no enumeration, relation or JSON marker and no other scalar
marker — is transformed to exactly the documented primitive type. -/
theorem claim4_scalar_table :
    ∀ (m : ScalarMarker) (s : String),
      strContains s (markerStr m) = true →
      (∀ m' : ScalarMarker, ¬ m' = m → strContains s (markerStr m') = false) →
      strContains s "Schema.Attribute.Enumeration" = false →
      strContains s "Schema.Attribute.Relation" = false →
      strContains s "Schema.Attribute.JSON" = false →
      transformAttributeType s = primOf m := by
  intro m s hm hothers henum hrel hjson
  cases m with
  | string =>
    have hm' : strContains s "Schema.Attribute.String" = true := hm
    simp [transformAttributeType, primOf, henum, hrel, hjson, hm']
  | email =>
    have h1 : strContains s "Schema.Attribute.String" = false :=
      hothers .string (by decide)
    have hm' : strContains s "Schema.Attribute.Email" = true := hm
    simp [transformAttributeType, primOf, henum, hrel, hjson, h1, hm']
  | password =>
    have h1 : strContains s "Schema.Attribute.String" = false :=
      hothers .string (by decide)
    have h2 : strContains s "Schema.Attribute.Email" = false :=
      hothers .email (by decide)
    have hm' : strContains s "Schema.Attribute.Password" = true := hm
    simp [transformAttributeType, primOf, henum, hrel, hjson, h1, h2, hm']
  | text =>
    have h1 : strContains s "Schema.Attribute.String" = false :=
      hothers .string (by decide)
    have h2 : strContains s "Schema.Attribute.Email" = false :=
      hothers .email (by decide)
    have h3 : strContains s "Schema.Attribute.Password" = false :=
      hothers .password (by decide)
    have hm' : strContains s "Schema.Attribute.Text" = true := hm
    simp [transformAttributeType, primOf, henum, hrel, hjson, h1, h2, h3, hm']
  | integer =>
    have h1 : strContains s "Schema.Attribute.String" = false :=
      hothers .string (by decide)
    have h2 : strContains s "Schema.Attribute.Email" = false :=
      hothers .email (by decide)
    have h3 : strContains s "Schema.Attribute.Password" = false :=
      hothers .password (by decide)
    have h4 : strContains s "Schema.Attribute.Text" = false :=
      hothers .text (by decide)
    have hm' : strContains s "Schema.Attribute.Integer" = true := hm
    simp [transformAttributeType, primOf, henum, hrel, hjson, h1, h2, h3, h4,
      hm']
  | bigInteger =>
    have h1 : strContains s "Schema.Attribute.String" = false :=
      hothers .string (by decide)
    have h2 : strContains s "Schema.Attribute.Email" = false :=
      hothers .email (by decide)
    have h3 : strContains s "Schema.Attribute.Password" = false :=
      hothers .password (by decide)
    have h4 : strContains s "Schema.Attribute.Text" = false :=
      hothers .text (by decide)
    have h5 : strContains s "Schema.Attribute.Integer" = false :=
      hothers .integer (by decide)
    have hm' : strContains s "Schema.Attribute.BigInteger" = true := hm
    simp [transformAttributeType, primOf, henum, hrel, hjson, h1, h2, h3, h4,
      h5, hm']
  | decimal =>
    have h1 : strContains s "Schema.Attribute.String" = false :=
      hothers .string (by decide)
    have h2 : strContains s "Schema.Attribute.Email" = false :=
      hothers .email (by decide)
    have h3 : strContains s "Schema.Attribute.Password" = false :=
      hothers .password (by decide)
    have h4 : strContains s "Schema.Attribute.Text" = false :=
      hothers .text (by decide)
    have h5 : strContains s "Schema.Attribute.Integer" = false :=
      hothers .integer (by decide)
    have h6 : strContains s "Schema.Attribute.BigInteger" = false :=
      hothers .bigInteger (by decide)
    have hm' : strContains s "Schema.Attribute.Decimal" = true := hm
    simp [transformAttributeType, primOf, henum, hrel, hjson, h1, h2, h3, h4,
      h5, h6, hm']
  | boolean =>
    have h1 : strContains s "Schema.Attribute.String" = false :=
      hothers .string (by decide)
    have h2 : strContains s "Schema.Attribute.Email" = false :=
      hothers .email (by decide)
    have h3 : strContains s "Schema.Attribute.Password" = false :=
      hothers .password (by decide)
    have h4 : strContains s "Schema.Attribute.Text" = false :=
      hothers .text (by decide)
    have h5 : strContains s "Schema.Attribute.Integer" = false :=
      hothers .integer (by decide)
    have h6 : strContains s "Schema.Attribute.BigInteger" = false :=
      hothers .bigInteger (by decide)
    have h7 : strContains s "Schema.Attribute.Decimal" = false :=
      hothers .decimal (by decide)
    have hm' : strContains s "Schema.Attribute.Boolean" = true := hm
    simp [transformAttributeType, primOf, henum, hrel, hjson, h1, h2, h3, h4,
      h5, h6, h7, hm']
  | dateTime =>
    have h1 : strContains s "Schema.Attribute.String" = false :=
      hothers .string (by decide)
    have h2 : strContains s "Schema.Attribute.Email" = false :=
      hothers .email (by decide)
    have h3 : strContains s "Schema.Attribute.Password" = false :=
      hothers .password (by decide)
    have h4 : strContains s "Schema.Attribute.Text" = false :=
      hothers .text (by decide)
    have h5 : strContains s "Schema.Attribute.Integer" = false :=
      hothers .integer (by decide)
    have h6 : strContains s "Schema.Attribute.BigInteger" = false :=
      hothers .bigInteger (by decide)
    have h7 : strContains s "Schema.Attribute.Decimal" = false :=
      hothers .decimal (by decide)
    have h8 : strContains s "Schema.Attribute.Boolean" = false :=
      hothers .boolean (by decide)
    have hm' : strContains s "Schema.Attribute.DateTime" = true := hm
    simp [transformAttributeType, primOf, henum, hrel, hjson, h1, h2, h3, h4,
      h5, h6, h7, h8, hm']

/-- C4 (witness): a boolean attribute combined with required and unique
markers transforms to `boolean`. -/
theorem claim4_scalar_table_witness :
    transformAttributeType
        "Schema.Attribute.Boolean & Schema.Attribute.Required & Schema.Attribute.Unique" =
      "boolean" :=
  claim4_scalar_table .boolean
    "Schema.Attribute.Boolean & Schema.Attribute.Required & Schema.Attribute.Unique"
    (by decide) (by decide) (by decide) (by decide) (by decide)

/-- C7: an attribute whose reconstructed type expression contains the
private marker is discarded entirely: the parser's step on such an
attribute equals the parse of the remaining lines (no record is emitted),
regardless of which required or type markers are also present; on a
concrete block the private attribute is absent from the result. -/
theorem claim7_private_filter :
    (∀ (fuel : Nat) (l : List Char) (ls : List (List Char)) (nm r0 : List Char),
      attrLineMatch l = some (nm, r0) →
      subOf "Schema.Attribute.Private".data
        (cleanAttrType (reconstruct r0 ls).1) = true →
      parseAttrsFuel (fuel + 1) (l :: ls) =
        parseAttrsFuel fuel (reconstruct r0 ls).2) ∧
    parseAttributes
        "secret: Schema.Attribute.String & Schema.Attribute.Private & Schema.Attribute.Required;\ntitle: Schema.Attribute.String;" =
      [⟨"title", "string", false⟩] := by
  constructor
  · intro fuel l ls nm r0 hm hp
    simp [parseAttrsFuel, hm, hp]
  · decide

/-- C7 (witness): the parser's step on a private attribute drops it. -/
theorem claim7_private_filter_witness :
    parseAttrsFuel 2
        ("secret: Schema.Attribute.Private;".data ::
          ["title: Schema.Attribute.String;".data]) =
      parseAttrsFuel 1
        (reconstruct "Schema.Attribute.Private;".data
          ["title: Schema.Attribute.String;".data]).2 :=
  claim7_private_filter.1 1 "secret: Schema.Attribute.Private;".data
    ["title: Schema.Attribute.String;".data] "secret".data
    "Schema.Attribute.Private;".data (by decide) (by decide)

/-- C8: every interface in the final output sequence has at least one
surviving attribute; the sequence is the match sequence of the source
text filtered in first-seen order; a match without a (non-empty)
attributes sub-block contributes nothing; a match whose attributes parse
to the empty list contributes nothing. -/
theorem claim8_invariants :
    (∀ content : String, ∀ pi ∈ interfacesOf content,
      pi.attributes.length > 0) ∧
    (∀ content : String,
      interfacesOf content = (interfaceMatches content).filterMap processMatch) ∧
    (∀ m : List Char × List Char, attrsScan m.2 = none → processMatch m = none) ∧
    (∀ (m : List Char × List Char) (cap : List Char), attrsScan m.2 = some cap →
      parseAttributes (String.mk cap) = [] → processMatch m = none) := by
  refine ⟨?_, fun content => rfl, ?_, ?_⟩
  · intro content pi hpi
    rw [interfacesOf] at hpi
    obtain ⟨m, _, hpm⟩ := List.mem_filterMap.mp hpi
    simp only [processMatch] at hpm
    split at hpm
    · exact absurd hpm (by simp)
    · split at hpm
      · exact absurd hpm (by simp)
      · split at hpm
        · exact absurd hpm (by simp)
        · split at hpm
          · exact absurd hpm (by simp)
          · split at hpm
            · obtain rfl : _ = pi := Option.some.inj hpm
              assumption
            · exact absurd hpm (by simp)
  · intro m hscan
    unfold processMatch
    split
    · rfl
    · split
      · rfl
      · rw [hscan]
  · intro m cap hscan hempty
    unfold processMatch
    split
    · rfl
    · split
      · rfl
      · rw [hscan]
        split
        · rfl
        next cap' heq =>
          obtain rfl := Option.some.inj heq
          simp [hempty]

/-- C5: whenever the enumeration marker is contained in the expression,
the result is the located bracketed literal list cleaned up (whitespace
runs collapsed, commas turned into union separators, trimmed), or
`string` when no list can be located; any expression of shape
`…Enumeration<` ws `[` list `]` ws `>` … — the whitespace may include
newlines and arbitrary indentation — yields exactly the cleaned list. -/
theorem claim5_enumeration :
    (∀ s : String, strContains s "Schema.Attribute.Enumeration" = true →
      transformAttributeType s =
        (match enumScan s.data with
          | some inner => String.mk (enumClean inner)
          | none => "string")) ∧
    (∀ w1 inner w2 post : List Char, ¬ inner = [] →
      (∀ c ∈ inner, ¬ c = ']') → (∀ c ∈ w1, jsSpace c = true) →
      (∀ c ∈ w2, jsSpace c = true) →
      transformAttributeType
          (String.mk ("Schema.Attribute.Enumeration<".data ++
            (w1 ++ ('[' :: (inner ++ (']' :: (w2 ++ ('>' :: post)))))))) =
        String.mk (enumClean inner)) ∧
    transformAttributeType "Schema.Attribute.Enumeration<[\"a\", \"b\", \"c\"]>" =
      "\"a\" | \"b\" | \"c\"" ∧
    transformAttributeType
        "Schema.Attribute.Enumeration<\n      [\"a\",\n       \"b\",\n     \"c\"]\n    >" =
      "\"a\" | \"b\" | \"c\"" ∧
    transformAttributeType "Schema.Attribute.Enumeration<> & Schema.Attribute.Required" =
      "string" := by
  refine ⟨?_, ?_, by decide, by decide, by decide⟩
  · intro s hs
    simp [transformAttributeType, hs]
  · intro w1 inner w2 post h1 h2 h3 h4
    have hsub :
        strContains
            (String.mk ("Schema.Attribute.Enumeration<".data ++
              (w1 ++ ('[' :: (inner ++ (']' :: (w2 ++ ('>' :: post))))))))
            "Schema.Attribute.Enumeration" = true := by
      show subOf "Schema.Attribute.Enumeration".data
        ("Schema.Attribute.Enumeration<".data ++
          (w1 ++ ('[' :: (inner ++ (']' :: (w2 ++ ('>' :: post))))))) = true
      rw [show "Schema.Attribute.Enumeration<".data =
          "Schema.Attribute.Enumeration".data ++ ['<'] from rfl,
        List.append_assoc]
      exact subOf_of_lpre _ _ (lpre_self_append _ _)
    have hscan :
        enumScan
            (String.mk ("Schema.Attribute.Enumeration<".data ++
              (w1 ++ ('[' :: (inner ++ (']' :: (w2 ++ ('>' :: post)))))))).data =
          some inner := by
      show enumScan
        ("Schema.Attribute.Enumeration<".data ++
          (w1 ++ ('[' :: (inner ++ (']' :: (w2 ++ ('>' :: post))))))) =
        some inner
      rw [show "Schema.Attribute.Enumeration<".data =
          "Schema.Attribute.".data ++ "Enumeration<".data from rfl,
        List.append_assoc,
        enumScan_prepend "Schema.Attribute.".data _ (by decide)]
      exact enumScan_at w1 inner w2 post h1 h2 h3 h4
    unfold transformAttributeType
    rw [hsub, hscan]
    rfl

/-- C5 (witness): a concrete enumeration together with a required marker
transforms to the union of its literals. -/
theorem claim5_enumeration_witness :
    transformAttributeType
        "Schema.Attribute.Enumeration<[\"x\", \"y\"]> & Schema.Attribute.Required" =
      "\"x\" | \"y\"" :=
  claim5_enumeration.1
    "Schema.Attribute.Enumeration<[\"x\", \"y\"]> & Schema.Attribute.Required"
    (by decide)

/-- C6: when the relation marker is present (and the enumeration marker is
not), the result is determined by the quoted pair: the PascalCase display
name of the target, suffixed `[]` exactly for the kinds `oneToMany` and
`manyToMany`, bare for every other kind, and `any` when the quoted pair
cannot be matched. -/
theorem claim6_relation :
    (∀ s : String, strContains s "Schema.Attribute.Enumeration" = false →
      strContains s "Schema.Attribute.Relation" = true →
      transformAttributeType s =
        (match relScan s.data with
          | some kt =>
            if kt.1 = "oneToMany".data || kt.1 = "manyToMany".data then
              convertTypeNameToPascalCase (String.mk kt.2) ++ "[]"
            else convertTypeNameToPascalCase (String.mk kt.2)
          | none => "any")) ∧
    (∀ kind target post w : List Char,
      strContains
          (String.mk ("Schema.Attribute.Relation<'".data ++
            (kind ++
              ('\'' :: (',' :: (w ++ ('\'' :: (target ++ ('\'' :: post)))))))))
          "Schema.Attribute.Enumeration" = false →
      ¬ kind = [] → (∀ c ∈ kind, ¬ c = '\'') → ¬ target = [] →
      (∀ c ∈ target, ¬ c = '\'') → (∀ c ∈ w, jsSpace c = true) →
      transformAttributeType
          (String.mk ("Schema.Attribute.Relation<'".data ++
            (kind ++
              ('\'' :: (',' :: (w ++ ('\'' :: (target ++ ('\'' :: post))))))))) =
        (if kind = "oneToMany".data || kind = "manyToMany".data then
          convertTypeNameToPascalCase (String.mk target) ++ "[]"
        else convertTypeNameToPascalCase (String.mk target))) ∧
    transformAttributeType "Schema.Attribute.Relation<'oneToOne', 'api::author.author'>" =
      "ApiAuthorAuthor" ∧
    transformAttributeType "Schema.Attribute.Relation<'manyToOne', 'api::author.author'>" =
      "ApiAuthorAuthor" ∧
    transformAttributeType "Schema.Attribute.Relation<'oneToMany', 'api::tag.tag'>" =
      "ApiTagTag[]" ∧
    transformAttributeType "Schema.Attribute.Relation<'manyToMany', 'api::tag.tag'>" =
      "ApiTagTag[]" ∧
    transformAttributeType "Schema.Attribute.Relation<bogus" = "any" := by
  refine ⟨?_, ?_, by decide, by decide, by decide, by decide, by decide⟩
  · intro s h1 h2
    simp [transformAttributeType, h1, h2]
    cases hr : relScan s.data with
    | none => rfl
    | some kt =>
      obtain ⟨k, t⟩ := kt
      rfl
  · intro kind target post w henum hk hk2 ht ht2 hw
    have hrel :
        strContains
            (String.mk ("Schema.Attribute.Relation<'".data ++
              (kind ++
                ('\'' ::
                  (',' :: (w ++ ('\'' :: (target ++ ('\'' :: post)))))))))
            "Schema.Attribute.Relation" = true := by
      show subOf "Schema.Attribute.Relation".data
        ("Schema.Attribute.Relation<'".data ++
          (kind ++
            ('\'' :: (',' :: (w ++ ('\'' :: (target ++ ('\'' :: post)))))))) =
        true
      rw [show "Schema.Attribute.Relation<'".data =
          "Schema.Attribute.Relation".data ++ "<'".data from rfl,
        List.append_assoc]
      exact subOf_of_lpre _ _ (lpre_self_append _ _)
    have hscan :
        relScan
            (String.mk ("Schema.Attribute.Relation<'".data ++
              (kind ++
                ('\'' ::
                  (',' :: (w ++ ('\'' :: (target ++ ('\'' :: post))))))))).data =
          some (kind, target) := by
      show relScan
        ("Schema.Attribute.Relation<'".data ++
          (kind ++
            ('\'' :: (',' :: (w ++ ('\'' :: (target ++ ('\'' :: post)))))))) =
        some (kind, target)
      rw [show "Schema.Attribute.Relation<'".data =
          "Schema.Attribute.".data ++ "Relation<'".data from rfl,
        List.append_assoc,
        relScan_prepend "Schema.Attribute.".data _ (by decide)]
      exact relScan_at kind target post w hk hk2 ht ht2 hw
    unfold transformAttributeType
    rw [henum, hrel, hscan]
    rfl

/-- C6 (witness): a oneToOne relation with a required marker transforms to
the bare PascalCase target name. -/
theorem claim6_relation_witness :
    transformAttributeType
        "Schema.Attribute.Relation<'oneToOne', 'api::author.author'> & Schema.Attribute.Required" =
      "ApiAuthorAuthor" :=
  claim6_relation.1
    "Schema.Attribute.Relation<'oneToOne', 'api::author.author'> & Schema.Attribute.Required"
    (by decide) (by decide)

/-- C8 (witness): the single interface extracted from the end-to-end
input has a non-empty attribute list. -/
theorem claim8_invariants_witness :
    (⟨"ApiArticleArticle",
      [⟨"title", "string", true⟩, ⟨"content", "string", false⟩,
        ⟨"status", "\"draft\" | \"published\"", true⟩,
        ⟨"author", "ApiAuthorAuthor", false⟩, ⟨"tags", "ApiTagTag[]", false⟩,
        ⟨"metadata", "Record<string, any>", false⟩]⟩ :
      ParsedInterface).attributes.length > 0 :=
  claim8_invariants.1 c1Input _ (by decide)

end StrapiGen
